import Mathlib

/-!
# Verification of the photo-archive planning and deduplication engine

Shallow embedding of `photo-archive.py`: the date resolver (`get_date_taken`),
the path allocator (`get_unique_path`), the batch planner and the execution
engine of `main`.  Paths are strings, the filesystem is a finite set of
existing paths, and filesystem interactions of the planner are recorded as an
explicit effect trace so that read-only behaviour can be stated and proved.
-/

namespace PhotoArchive

/-- A local date-time value as produced by `datetime.datetime` (either parsed
from the EXIF tag by `strptime` or obtained from the file's mtime via
`datetime.datetime.fromtimestamp`). -/
structure DateTime where
  year : Nat
  month : Nat
  day : Nat
  hour : Nat
  minute : Nat
  second : Nat
deriving DecidableEq, Repr

/-- The result of `img._getexif()`: either `None` or a dictionary from EXIF tag
numbers to string values, modelled as an association list. -/
structure ImageData where
  exif : Option (List (Nat × String))
deriving DecidableEq, Repr

/-- One regular file discovered by `os.walk(source)`: the directory it lives
in (`root`), its filename, the outcome of `Image.open` + `_getexif` on it
(`.error` models any exception raised while opening/reading the image), and
its modification time already converted to a local date-time. -/
structure SrcFile where
  root : String
  name : String
  openResult : Except String ImageData
  mtime : DateTime
deriving Repr

/-- Auxiliary scan for the index of the last occurrence of `t` in `cs`. -/
def lastIdxAux (t : Char) : List Char → Nat → Option Nat → Option Nat
  | [], _, acc => acc
  | c :: cs, i, acc => lastIdxAux t cs (i + 1) (if c = t then some i else acc)

/-- Index of the last occurrence of character `t` in `cs`, if any. -/
def lastIdx (t : Char) (cs : List Char) : Option Nat :=
  lastIdxAux t cs 0 none

/-- `os.path.splitext(filename)`: split at the last dot, except that a dot
preceded only by dots (a leading-dot file such as `.bashrc`) starts no
extension. -/
def splitext (s : String) : String × String :=
  match lastIdx '.' s.data with
  | none => (s, "")
  | some i =>
    if (s.data.take i).all (fun c => c == '.') then (s, "")
    else (⟨s.data.take i⟩, ⟨s.data.drop i⟩)

/-- `os.path.join(dir, file)` for a directory without a trailing separator. -/
def joinPath (dir file : String) : String := dir ++ "/" ++ file

/-- The loop condition of `get_unique_path`:
`os.path.exists(full_path) or full_path in reserved_paths`, with the real
filesystem modelled by the finite set `fs` of existing paths. -/
def occupied (fs reserved : Finset String) (p : String) : Bool :=
  decide (p ∈ fs) || decide (p ∈ reserved)

/-- The candidate sequence tried by `get_unique_path`: index `0` is the
original filename under the destination folder, index `k ≥ 1` is
`stem(k)extension` (the code's `f"{name}({counter}){ext}"`). -/
def cand (dir name ext filename : String) (k : Nat) : String :=
  if k = 0 then joinPath dir filename
  else joinPath dir (name ++ "(" ++ Nat.repr k ++ ")" ++ ext)

/-- The `while` loop of `get_unique_path`, with explicit fuel (the source
loop is unbounded; termination is proved separately).  `counter` starts at 1
and `fullPath` at `join(dir, filename)`, exactly as in the source.  On exit it
returns the free path together with the index of the candidate chosen
(`counter - 1`, since candidate `k` is examined when `counter = k + 1`). -/
def guLoop (occ : String → Bool) (dir name ext : String) :
    Nat → Nat → String → Option (String × Nat)
  | 0, _, _ => none
  | fuel + 1, counter, fullPath =>
    if occ fullPath then
      guLoop occ dir name ext fuel (counter + 1)
        (joinPath dir (name ++ "(" ++ Nat.repr counter ++ ")" ++ ext))
    else some (fullPath, counter - 1)

/-- `get_unique_path(destination_folder, filename, reserved_paths)` together
with the index of the candidate it settled on.  The fuel
`(fs ∪ reserved).card + 1` is provably sufficient (see the termination
results), so the `getD` default is never used. -/
def get_unique_path_core (fs reserved : Finset String)
    (destination_folder filename : String) : String × Nat :=
  let ne := splitext filename
  (guLoop (occupied fs reserved) destination_folder ne.1 ne.2
      ((fs ∪ reserved).card + 1) 1 (joinPath destination_folder filename)).getD
    (joinPath destination_folder filename, 0)

/-- `get_unique_path(destination_folder, filename, reserved_paths)`. -/
def get_unique_path (fs reserved : Finset String)
    (destination_folder filename : String) : String :=
  (get_unique_path_core fs reserved destination_folder filename).1

/-! ### Injectivity of the decimal rendering of the collision counter

The f-string `f"{name}({counter}){ext}"` renders the counter in decimal
(`Nat.repr` in the embedding).  Distinct counters must give distinct
candidate paths; we prove `Nat.repr` injective by exhibiting a left inverse
that reads the digits back. -/

/-- Decimal reading of a digit string; left inverse of `Nat.repr`. -/
def digitsVal (cs : List Char) : Nat :=
  cs.foldl (fun a c => 10 * a + (c.toNat - 48)) 0

theorem digitsVal_append_singleton (cs : List Char) (c : Char) :
    digitsVal (cs ++ [c]) = 10 * digitsVal cs + (c.toNat - 48) := by
  simp [digitsVal, List.foldl_append]

theorem toDigitsCore_acc (fuel : Nat) :
    ∀ n ds, Nat.toDigitsCore 10 fuel n ds = Nat.toDigitsCore 10 fuel n [] ++ ds := by
  induction fuel with
  | zero => intro n ds; simp [Nat.toDigitsCore]
  | succ f ih =>
    intro n ds
    simp only [Nat.toDigitsCore]
    by_cases h : n / 10 = 0
    · simp [h]
    · simp only [h, if_false]
      rw [ih (n / 10) (Nat.digitChar (n % 10) :: ds),
        ih (n / 10) [Nat.digitChar (n % 10)]]
      simp

theorem toDigitsCore_fuel :
    ∀ f1 f2 n ds, n < f1 → n < f2 →
      Nat.toDigitsCore 10 f1 n ds = Nat.toDigitsCore 10 f2 n ds := by
  intro f1
  induction f1 with
  | zero => intro f2 n ds h1 _; exact absurd h1 (Nat.not_lt_zero n)
  | succ f ih =>
    intro f2 n ds h1 h2
    cases f2 with
    | zero => exact absurd h2 (Nat.not_lt_zero n)
    | succ g =>
      simp only [Nat.toDigitsCore]
      by_cases h : n / 10 = 0
      · simp [h]
      · simp only [h, if_false]
        have hpos : 0 < n := by
          rcases Nat.eq_zero_or_pos n with h0 | h0
          · subst h0; simp at h
          · exact h0
        have hdiv : n / 10 < n := Nat.div_lt_self hpos (by decide)
        exact ih g (n / 10) _ (by omega) (by omega)

theorem digitsVal_toDigits : ∀ n : Nat, digitsVal (Nat.toDigits 10 n) = n := by
  intro n
  induction n using Nat.strong_induction_on with
  | _ n ih =>
    have hdc : ∀ m, m < 10 → (Nat.digitChar m).toNat - 48 = m := by decide
    by_cases h : n / 10 = 0
    · have hn : n < 10 := by omega
      have hbase : Nat.toDigits 10 n = [Nat.digitChar (n % 10)] := by
        simp [Nat.toDigits, Nat.toDigitsCore, h]
      rw [hbase]
      have := hdc (n % 10) (Nat.mod_lt n (by decide))
      simp only [digitsVal, List.foldl]
      omega
    · have hpos : 0 < n := by
        rcases Nat.eq_zero_or_pos n with h0 | h0
        · subst h0; simp at h
        · exact h0
      have hdiv : n / 10 < n := Nat.div_lt_self hpos (by decide)
      have expand : Nat.toDigits 10 n
          = Nat.toDigits 10 (n / 10) ++ [Nat.digitChar (n % 10)] := by
        show Nat.toDigitsCore 10 (n + 1) n [] = _
        simp only [Nat.toDigitsCore]
        simp only [h, if_false]
        rw [toDigitsCore_acc n (n / 10) [Nat.digitChar (n % 10)]]
        rw [toDigitsCore_fuel n (n / 10 + 1) (n / 10) [] (by omega) (by omega)]
        rfl
      rw [expand, digitsVal_append_singleton, ih (n / 10) hdiv,
        hdc (n % 10) (Nat.mod_lt n (by decide))]
      omega

theorem natRepr_inj {m n : Nat} (h : Nat.repr m = Nat.repr n) : m = n := by
  have hd : Nat.toDigits 10 m = Nat.toDigits 10 n := by
    have hdata := congrArg String.data h
    simpa [Nat.repr, List.asString] using hdata
  have := congrArg digitsVal hd
  simpa [digitsVal_toDigits] using this

theorem splitext_append (s : String) : (splitext s).1 ++ (splitext s).2 = s := by
  unfold splitext
  cases h : lastIdx '.' s.data with
  | none => simp
  | some i =>
    by_cases hall : (s.data.take i).all (fun c => c == '.')
    · simp [hall]
    · simp only [hall, if_false]
      apply String.ext
      simp [String.data_append]

theorem splitext_length (s : String) :
    (splitext s).1.length + (splitext s).2.length = s.length := by
  have h := congrArg String.length (splitext_append s)
  simpa [String.length_append] using h

theorem string_append_cancel_left {a b c : String} (h : a ++ b = a ++ c) : b = c := by
  apply String.ext
  have hd := congrArg String.data h
  simp only [String.data_append] at hd
  exact List.append_cancel_left hd

theorem string_append_cancel_right {a b c : String} (h : a ++ c = b ++ c) : a = b := by
  apply String.ext
  have hd := congrArg String.data h
  simp only [String.data_append] at hd
  exact List.append_cancel_right hd

/-- Distinct counters produce distinct candidate paths (the claim's
"the candidate sequence is injective in the counter").  The length hypothesis
is exactly what `os.path.splitext` guarantees about stem and extension. -/
theorem cand_inj (dir name ext filename : String)
    (hlen : filename.length = name.length + ext.length) :
    ∀ j k, cand dir name ext filename j = cand dir name ext filename k → j = k := by
  have hlen01 : ∀ l, cand dir name ext filename 0 ≠ cand dir name ext filename (l + 1) := by
    intro l he
    have hl := congrArg String.length he
    simp only [cand, eq_self_iff_true, if_true, if_neg (Nat.succ_ne_zero l), joinPath,
      String.length_append] at hl
    have h1 : ("/" : String).length = 1 := rfl
    have h2 : ("(" : String).length = 1 := rfl
    have h3 : (")" : String).length = 1 := rfl
    omega
  intro j k he
  match j, k with
  | 0, 0 => rfl
  | 0, l + 1 => exact absurd he (hlen01 l)
  | i + 1, 0 => exact absurd he.symm (hlen01 i)
  | i + 1, l + 1 =>
    simp only [cand, if_neg (Nat.succ_ne_zero i), if_neg (Nat.succ_ne_zero l),
      joinPath] at he
    have h1 := string_append_cancel_left he
    have h2 := string_append_cancel_right h1
    have h3 := string_append_cancel_right h2
    have h4 := string_append_cancel_left h3
    exact natRepr_inj h4

/-- Pigeonhole: among the first `(fs ∪ reserved).card + 1` candidates some
path is neither on the filesystem nor reserved. -/
theorem exists_free_cand (fs reserved : Finset String) (dir name ext filename : String)
    (hlen : filename.length = name.length + ext.length) :
    ∃ k, k ≤ (fs ∪ reserved).card ∧
      occupied fs reserved (cand dir name ext filename k) = false := by
  by_contra hcon
  push_neg at hcon
  have hall : ∀ k ∈ Finset.range ((fs ∪ reserved).card + 1),
      cand dir name ext filename k ∈ fs ∪ reserved := by
    intro k hk
    have hk' : k ≤ (fs ∪ reserved).card := by
      have := Finset.mem_range.mp hk; omega
    have hocc := hcon k hk'
    have : occupied fs reserved (cand dir name ext filename k) = true := by
      cases hb : occupied fs reserved (cand dir name ext filename k)
      · exact absurd hb hocc
      · rfl
    simp only [occupied, Bool.or_eq_true, decide_eq_true_eq] at this
    exact Finset.mem_union.mpr this
  have hinj : Set.InjOn (cand dir name ext filename)
      (Finset.range ((fs ∪ reserved).card + 1)) := by
    intro a _ b _ hab
    exact cand_inj dir name ext filename hlen a b hab
  have hcard := Finset.card_le_card_of_injOn (cand dir name ext filename) hall hinj
  simp only [Finset.card_range] at hcard
  omega

/-- If some candidate at index `≥ start` within the fuel window is free, the
loop run from candidate `start` (counter `start + 1`) returns the first free
candidate at index `≥ start`. -/
theorem guLoop_progress (occ : String → Bool) (dir name ext filename : String) :
    ∀ fuel start,
      (∃ k, start ≤ k ∧ k < start + fuel ∧ occ (cand dir name ext filename k) = false) →
      ∃ m, guLoop occ dir name ext fuel (start + 1) (cand dir name ext filename start)
          = some (cand dir name ext filename m, m) ∧
        occ (cand dir name ext filename m) = false ∧ start ≤ m ∧
        ∀ j, start ≤ j → j < m → occ (cand dir name ext filename j) = true := by
  intro fuel
  induction fuel with
  | zero =>
    rintro start ⟨k, hk1, hk2, -⟩
    omega
  | succ f ih =>
    rintro start ⟨k, hk1, hk2, hkfree⟩
    cases hocc : occ (cand dir name ext filename start) with
    | false =>
      refine ⟨start, ?_, hocc, Nat.le_refl _, ?_⟩
      · simp [guLoop, hocc]
      · intro j h1 h2; omega
    | true =>
      have hks : k ≠ start := by
        intro he
        rw [he, hocc] at hkfree
        exact Bool.noConfusion hkfree
      obtain ⟨m, hm, hmfree, hmge, hmmin⟩ :=
        ih (start + 1) ⟨k, by omega, by omega, hkfree⟩
      have hcand : joinPath dir (name ++ "(" ++ Nat.repr (start + 1) ++ ")" ++ ext)
          = cand dir name ext filename (start + 1) := by
        simp [cand]
      refine ⟨m, ?_, hmfree, by omega, ?_⟩
      · simp only [guLoop, hocc, if_true]
        rw [hcand]
        exact hm
      · intro j h1 h2
        rcases Nat.eq_or_lt_of_le h1 with he | hlt
        · rw [← he]; exact hocc
        · exact hmmin j hlt h2

/-- Master lemma for the allocator: `get_unique_path_core` returns the first
free candidate together with its index. -/
theorem get_unique_path_core_spec (fs reserved : Finset String) (dir filename : String) :
    ∃ m, get_unique_path_core fs reserved dir filename
        = (cand dir (splitext filename).1 (splitext filename).2 filename m, m) ∧
      occupied fs reserved
        (cand dir (splitext filename).1 (splitext filename).2 filename m) = false ∧
      ∀ j, j < m → occupied fs reserved
        (cand dir (splitext filename).1 (splitext filename).2 filename j) = true := by
  have hlen : filename.length = (splitext filename).1.length + (splitext filename).2.length :=
    (splitext_length filename).symm
  obtain ⟨k, hk, hkfree⟩ := exists_free_cand fs reserved dir
    (splitext filename).1 (splitext filename).2 filename hlen
  obtain ⟨m, hm, hmfree, -, hmmin⟩ := guLoop_progress (occupied fs reserved) dir
    (splitext filename).1 (splitext filename).2 filename
    ((fs ∪ reserved).card + 1) 0 ⟨k, Nat.zero_le _, by omega, hkfree⟩
  refine ⟨m, ?_, hmfree, fun j hj => hmmin j (Nat.zero_le _) hj⟩
  have h0 : cand dir (splitext filename).1 (splitext filename).2 filename 0
      = joinPath dir filename := rfl
  rw [h0] at hm
  simp only [get_unique_path_core]
  rw [hm]
  rfl

/-- The path returned by `get_unique_path` neither exists on the (modelled)
filesystem nor belongs to the reserved set. -/
theorem get_unique_path_not_occupied (fs reserved : Finset String) (dir filename : String) :
    occupied fs reserved (get_unique_path fs reserved dir filename) = false := by
  obtain ⟨m, hcore, hfree, -⟩ := get_unique_path_core_spec fs reserved dir filename
  simp only [get_unique_path, hcore]
  exact hfree

/-! ### Date resolver -/

/-- `get_date_taken(path)`: the nested try/except of the source, flattened on
the outcome data of the file.  `strptime` is the collaborator
`datetime.datetime.strptime(date_str, "%Y:%m:%d %H:%M:%S")`, returning `none`
where the original raises `ValueError`.  The Python truthiness tests
`if exif_data:` and `if date_str:` make an empty dictionary and an empty tag
string fall through to the fallback. -/
def get_date_taken (strptime : String → Option DateTime) (f : SrcFile) : DateTime :=
  match f.openResult with
  | .error _ => f.mtime
  | .ok img =>
    match img.exif with
    | none => f.mtime
    | some exifData =>
      if exifData.isEmpty then f.mtime
      else
        match exifData.lookup 36867 with
        | none => f.mtime
        | some dateStr =>
          if dateStr.isEmpty then f.mtime
          else
            match strptime dateStr with
            | some d => d
            | none => f.mtime

/-- Error taxonomy of the spec's strict-mode date resolver. -/
inductive MetadataError where
  | ioError (msg : String)
  | parseError (raw : String)
deriving DecidableEq, Repr

/-- Modelled from the spec: the strict-mode resolver
`resolve_date(file_path, strict)` of spec §4.1 is not present in `src/`
(`get_date_taken` has no strict parameter); this definition follows the
spec's words: in strict mode any exception while opening/reading the image
or parsing the tag is re-raised as a `MetadataError`; with `strict = false`
every such error is swallowed and resolution falls back to the modification
timestamp; an absent dictionary or absent tag raises nothing and falls back
silently in both modes. -/
def resolve_date (strict : Bool) (strptime : String → Option DateTime)
    (f : SrcFile) : Except MetadataError DateTime :=
  match f.openResult with
  | .error e => if strict then .error (.ioError e) else .ok f.mtime
  | .ok img =>
    match img.exif with
    | none => .ok f.mtime
    | some exifData =>
      if exifData.isEmpty then .ok f.mtime
      else
        match exifData.lookup 36867 with
        | none => .ok f.mtime
        | some dateStr =>
          if dateStr.isEmpty then .ok f.mtime
          else
            match strptime dateStr with
            | some d => .ok d
            | none => if strict then .error (.parseError dateStr) else .ok f.mtime

/-! ### Filesystem effects

Planning and execution interact with the filesystem; each interaction is
recorded as an effect so that the read-only character of the planning phase
is a provable statement rather than a modelling assumption. -/

inductive FSEffect where
  | existsCheck (p : String)
  | statMtime (p : String)
  | openImage (p : String)
  | makeDirs (p : String)
  | copy2 (src dst : String)
deriving DecidableEq, Repr

def FSEffect.isRead : FSEffect → Bool
  | .existsCheck _ => true
  | .statMtime _ => true
  | .openImage _ => true
  | .makeDirs _ => false
  | .copy2 _ _ => false

/-- The change an effect makes to the set of existing paths: directory
creation and copying create their target; reads change nothing. -/
def FSEffect.applyTo (fs : Finset String) : FSEffect → Finset String
  | .makeDirs p => insert p fs
  | .copy2 _ dst => insert dst fs
  | .existsCheck _ => fs
  | .statMtime _ => fs
  | .openImage _ => fs

def applyEffects (fs : Finset String) (es : List FSEffect) : Finset String :=
  es.foldl FSEffect.applyTo fs

theorem applyTo_read (fs : Finset String) (e : FSEffect) (h : e.isRead = true) :
    FSEffect.applyTo fs e = fs := by
  cases e <;> simp_all [FSEffect.isRead, FSEffect.applyTo]

theorem applyEffects_reads (es : List FSEffect) :
    ∀ fs, (∀ e ∈ es, e.isRead = true) → applyEffects fs es = fs := by
  induction es with
  | nil => intro fs _; rfl
  | cons e es ih =>
    intro fs h
    have he := h e (List.mem_cons_self e es)
    have hrest : ∀ x ∈ es, x.isRead = true := fun x hx => h x (List.mem_cons_of_mem e hx)
    simp only [applyEffects, List.foldl_cons]
    rw [applyTo_read fs e he]
    exact ih fs hrest

/-- The filesystem reads `get_date_taken` performs on one file: it always
opens the image, and stats the modification time exactly when it falls back. -/
def dateEffects (strptime : String → Option DateTime) (f : SrcFile) : List FSEffect :=
  let p := joinPath f.root f.name
  match f.openResult with
  | .error _ => [.openImage p, .statMtime p]
  | .ok img =>
    match img.exif with
    | none => [.openImage p, .statMtime p]
    | some exifData =>
      if exifData.isEmpty then [.openImage p, .statMtime p]
      else
        match exifData.lookup 36867 with
        | none => [.openImage p, .statMtime p]
        | some dateStr =>
          if dateStr.isEmpty then [.openImage p, .statMtime p]
          else
            match strptime dateStr with
            | some _ => [.openImage p]
            | none => [.openImage p, .statMtime p]

theorem dateEffects_reads (strptime : String → Option DateTime) (f : SrcFile) :
    ∀ e ∈ dateEffects strptime f, e.isRead = true := by
  intro e he
  unfold dateEffects at he
  repeat' split at he
  all_goals simp only [List.mem_cons, List.not_mem_nil, or_false] at he
  all_goals rcases he with rfl | rfl <;> rfl

/-! ### Batch planner (phase 1 of `main`) -/

/-- The triple `(source_path, target_path, date_obj)` appended to
`planned_operations`. -/
structure PlannedOperation where
  source_path : String
  destination_path : String
  capture_date : DateTime
deriving DecidableEq, Repr

/-- `strftime("%B")`: the full month name. -/
def monthName : Nat → String
  | 1 => "January"
  | 2 => "February"
  | 3 => "March"
  | 4 => "April"
  | 5 => "May"
  | 6 => "June"
  | 7 => "July"
  | 8 => "August"
  | 9 => "September"
  | 10 => "October"
  | 11 => "November"
  | 12 => "December"
  | _ => ""

/-- Two-digit zero padding, as in `strftime("%m")`. -/
def pad2 (n : Nat) : String := if n < 10 then "0" ++ Nat.repr n else Nat.repr n

/-- `date_obj.strftime("%Y")`. -/
def yearFolder (d : DateTime) : String := Nat.repr d.year

/-- `date_obj.strftime("%m-%B")`, e.g. `01-January`. -/
def monthFolder (d : DateTime) : String := pad2 d.month ++ "-" ++ monthName d.month

/-- `target_dir`: `dest/YYYY/MM-MonthName` with the optional trailing
prefix directory. -/
def targetDirFor (dest : String) (pfx : Option String) (d : DateTime) : String :=
  match pfx with
  | some p => joinPath (joinPath (joinPath dest (yearFolder d)) (monthFolder d)) p
  | none => joinPath (joinPath dest (yearFolder d)) (monthFolder d)

/-- The `os.path.exists` probes of one `get_unique_path` call: one per
candidate examined, up to and including the one returned. -/
def allocEffects (fs reserved : Finset String) (dir filename : String) : List FSEffect :=
  (List.range ((get_unique_path_core fs reserved dir filename).2 + 1)).map
    (fun k => FSEffect.existsCheck
      (cand dir (splitext filename).1 (splitext filename).2 filename k))

/-- The planner's accumulating state: the growing plan, the reserved
destination paths of this run, and the trace of filesystem effects. -/
structure PlanState where
  planned_operations : List PlannedOperation
  reserved_paths : Finset String
  trace : List FSEffect

def emptyPlanState : PlanState := ⟨[], ∅, []⟩

/-- One iteration of the planning loop: resolve the date, derive the target
directory, allocate a unique path, reserve it, append the operation. -/
def planStep (strptime : String → Option DateTime) (fs : Finset String)
    (dest : String) (pfx : Option String) (st : PlanState) (f : SrcFile) : PlanState :=
  let source_path := joinPath f.root f.name
  let date_obj := get_date_taken strptime f
  let target_dir := targetDirFor dest pfx date_obj
  let target_path := get_unique_path fs st.reserved_paths target_dir f.name
  { planned_operations := st.planned_operations ++ [⟨source_path, target_path, date_obj⟩]
    reserved_paths := insert target_path st.reserved_paths
    trace := st.trace ++ dateEffects strptime f
      ++ allocEffects fs st.reserved_paths target_dir f.name }

/-- Phase 1 of `main`: fold the planning step over the files `os.walk`
discovers, starting from an empty plan and an empty reserved set. -/
def planPass (strptime : String → Option DateTime) (fs : Finset String)
    (dest : String) (pfx : Option String) (walk : List SrcFile) : PlanState :=
  walk.foldl (planStep strptime fs dest pfx) emptyPlanState

/-! ### Execution engine (phase 4 of `main`) -/

/-- `os.path.dirname`: the part before the last separator, with trailing
separators stripped unless the head consists only of separators. -/
def dirname (s : String) : String :=
  match lastIdx '/' s.data with
  | none => ""
  | some i =>
    let head := s.data.take (i + 1)
    if head.all (fun c => c == '/') then ⟨head⟩
    else ⟨(head.reverse.dropWhile (fun c => c == '/')).reverse⟩

/-- Execution state: the evolving filesystem, the `success_count` counter of
the source, and the per-operation outcome list (`true` = copied). -/
structure ExecState where
  existing : Finset String
  success_count : Nat
  outcomes : List Bool

/-- One iteration of the copy loop: ensure the destination directory exists
(`os.makedirs`, a failure skips the operation), then `shutil.copy2`
(a failure is logged and skipped; a success bumps `success_count`).
`mkdirFails` and `copyFails` are oracles for which calls raise. -/
def execStep (mkdirFails : Finset String) (copyFails : Finset (String × String))
    (st : ExecState) (op : PlannedOperation) : ExecState :=
  let target_dir := dirname op.destination_path
  let doCopy : ExecState → ExecState := fun s =>
    if (op.source_path, op.destination_path) ∈ copyFails then
      { s with outcomes := s.outcomes ++ [false] }
    else
      { existing := insert op.destination_path s.existing
        success_count := s.success_count + 1
        outcomes := s.outcomes ++ [true] }
  if target_dir ∈ st.existing then doCopy st
  else if target_dir ∈ mkdirFails then { st with outcomes := st.outcomes ++ [false] }
  else doCopy { st with existing := insert target_dir st.existing }

/-- Phase 4 of `main`: run the copy loop over the whole plan. -/
def execute (mkdirFails : Finset String) (copyFails : Finset (String × String))
    (existing : Finset String) (plan : List PlannedOperation) : ExecState :=
  plan.foldl (execStep mkdirFails copyFails) ⟨existing, 0, []⟩

/-! ### Top-level control flow of `main` -/

/-- Python `str.strip()`: remove leading and trailing whitespace. -/
def pyStrip (s : String) : String :=
  ⟨((s.data.dropWhile Char.isWhitespace).reverse.dropWhile Char.isWhitespace).reverse⟩

/-- Python `str.lower()` (ASCII, which is all the y/n reply needs). -/
def pyLower (s : String) : String :=
  ⟨s.data.map Char.toLower⟩

/-- How a run of `main` ends. -/
inductive Outcome where
  | usageError
  | nothingToDo
  | cancelled
  | completed (success_count total : Nat)
deriving DecidableEq, Repr

/-- The process exit code of each outcome: `sys.exit(1)` on a usage error,
`sys.exit(0)` after "No files found", `sys.exit(0)` after
"Operation cancelled.", and the implicit `0` when `main` returns. -/
def exitCode : Outcome → Nat
  | .usageError => 1
  | .nothingToDo => 0
  | .cancelled => 0
  | .completed _ _ => 0

/-- `main()`.  `argv` is `sys.argv` (index 0 is the script name), `walk` the
files discovered under `argv[1]`, `confirm` the reply read by `input()`;
`fs`, `mkdirFails` and `copyFails` model the destination filesystem and
which mutating calls raise. -/
def photoMain (argv : List String) (strptime : String → Option DateTime)
    (fs mkdirFails : Finset String) (copyFails : Finset (String × String))
    (walk : List SrcFile) (confirm : String) : Outcome :=
  if argv.length < 3 then .usageError
  else
    let dest := (argv[2]?).getD ""
    let pfx := argv[3]?
    let st := planPass strptime fs dest pfx walk
    if walk.length = 0 then .nothingToDo
    else if pyLower (pyStrip confirm) ≠ "y" then .cancelled
    else
      let ex := execute mkdirFails copyFails fs st.planned_operations
      .completed ex.success_count st.planned_operations.length

/-! ## Claims -/

/-- C3: `get_unique_path` returns the first candidate of the sequence
`stem+ext, stem(1)ext, stem(2)ext, …` (counter starting at 1) that neither
exists on the real filesystem nor is a member of the supplied reserved set;
consequently, for two source files named `a.jpg` destined for the same folder
the second resolves to `a(1).jpg` and a third to `a(2).jpg`. -/
theorem gup_first_free :
    (∀ (fs reserved : Finset String) (dir filename : String),
      ∃ m, get_unique_path fs reserved dir filename
          = cand dir (splitext filename).1 (splitext filename).2 filename m ∧
        occupied fs reserved
          (cand dir (splitext filename).1 (splitext filename).2 filename m) = false ∧
        ∀ j, j < m → occupied fs reserved
          (cand dir (splitext filename).1 (splitext filename).2 filename j) = true) ∧
    get_unique_path {"d/a.jpg"} ∅ "d" "a.jpg" = "d/a(1).jpg" ∧
    get_unique_path {"d/a.jpg"} {"d/a(1).jpg"} "d" "a.jpg" = "d/a(2).jpg" := by
  refine ⟨?_, by decide, by decide⟩
  intro fs reserved dir filename
  obtain ⟨m, hcore, hfree, hmin⟩ := get_unique_path_core_spec fs reserved dir filename
  exact ⟨m, by simp only [get_unique_path, hcore], hfree, hmin⟩

/-- Witness for C3 at a concrete occupied folder: the first free candidate is
`d/a(1).jpg`, chosen at index 1, with the index-0 candidate occupied. -/
theorem gup_first_free_witness :
    ∃ m, get_unique_path {"d/a.jpg"} ∅ "d" "a.jpg"
        = cand "d" (splitext "a.jpg").1 (splitext "a.jpg").2 "a.jpg" m ∧
      occupied {"d/a.jpg"} ∅
        (cand "d" (splitext "a.jpg").1 (splitext "a.jpg").2 "a.jpg" m) = false ∧
      ∀ j, j < m → occupied {"d/a.jpg"} ∅
        (cand "d" (splitext "a.jpg").1 (splitext "a.jpg").2 "a.jpg" j) = true :=
  gup_first_free.1 {"d/a.jpg"} ∅ "d" "a.jpg"

/-- C9: the allocation loop terminates for every finite occupied set: the
candidate sequence is injective in the counter, so within
`(fs ∪ reserved).card + 1` iterations the loop reaches a candidate outside
the occupied set and returns it (`some`, never the out-of-fuel `none`). -/
theorem gup_terminates (fs reserved : Finset String) (dir filename : String) :
    Function.Injective (cand dir (splitext filename).1 (splitext filename).2 filename) ∧
    ∃ m, guLoop (occupied fs reserved) dir (splitext filename).1 (splitext filename).2
        ((fs ∪ reserved).card + 1) 1 (joinPath dir filename)
        = some (cand dir (splitext filename).1 (splitext filename).2 filename m, m) ∧
      occupied fs reserved
        (cand dir (splitext filename).1 (splitext filename).2 filename m) = false := by
  have hlen : filename.length
      = (splitext filename).1.length + (splitext filename).2.length :=
    (splitext_length filename).symm
  constructor
  · intro a b hab
    exact cand_inj dir (splitext filename).1 (splitext filename).2 filename hlen a b hab
  · obtain ⟨k, hk, hkfree⟩ := exists_free_cand fs reserved dir
      (splitext filename).1 (splitext filename).2 filename hlen
    obtain ⟨m, hm, hmfree, -, -⟩ := guLoop_progress (occupied fs reserved) dir
      (splitext filename).1 (splitext filename).2 filename
      ((fs ∪ reserved).card + 1) 0 ⟨k, Nat.zero_le _, by omega, hkfree⟩
    have h0 : cand dir (splitext filename).1 (splitext filename).2 filename 0
        = joinPath dir filename := rfl
    rw [h0] at hm
    exact ⟨m, hm, hmfree⟩

/-- Witness for C9 on a concrete occupied set: the loop returns within the
provided fuel. -/
theorem gup_terminates_witness :
    ∃ m, guLoop (occupied {"d/a.jpg"} ∅) "d" (splitext "a.jpg").1 (splitext "a.jpg").2
        (({"d/a.jpg"} ∪ (∅ : Finset String)).card + 1) 1 (joinPath "d" "a.jpg")
        = some (cand "d" (splitext "a.jpg").1 (splitext "a.jpg").2 "a.jpg" m, m) ∧
      occupied {"d/a.jpg"} ∅
        (cand "d" (splitext "a.jpg").1 (splitext "a.jpg").2 "a.jpg" m) = false :=
  (gup_terminates {"d/a.jpg"} ∅ "d" "a.jpg").2

/-- C10: the collision suffix is appended to the full original stem, never
merged with a counter already present in the name: for desired filename
`a(1).jpg` a collision yields `a(1)(1).jpg`, then `a(1)(2).jpg`, and never
`a(2).jpg`. -/
theorem collision_suffix_full_stem :
    splitext "a(1).jpg" = ("a(1)", ".jpg") ∧
    get_unique_path {"d/a(1).jpg"} ∅ "d" "a(1).jpg" = "d/a(1)(1).jpg" ∧
    get_unique_path {"d/a(1).jpg", "d/a(1)(1).jpg"} ∅ "d" "a(1).jpg" = "d/a(1)(2).jpg" ∧
    (get_unique_path {"d/a(1).jpg"} ∅ "d" "a(1).jpg" == "d/a(2).jpg") = false ∧
    (get_unique_path {"d/a(1).jpg", "d/a(1)(1).jpg"} ∅ "d" "a(1).jpg"
      == "d/a(2).jpg") = false := by
  exact ⟨by decide, by decide, by decide, by decide, by decide⟩

/-- C2: for every file whose embedded capture-time tag (EXIF tag 36867,
DateTimeOriginal) is present (truthy) and parses under the fixed format, the
resolved date equals the parsed value exactly; for every other file (open
failure, absent metadata, absent tag, or parse failure) the resolved date
equals the file's modification timestamp. -/
theorem date_resolution (strptime : String → Option DateTime) (f : SrcFile) :
    (∀ img exifData dateStr d,
        f.openResult = .ok img →
        img.exif = some exifData →
        exifData.isEmpty = false →
        exifData.lookup 36867 = some dateStr →
        dateStr.isEmpty = false →
        strptime dateStr = some d →
        get_date_taken strptime f = d) ∧
    ((¬ ∃ img exifData dateStr d,
        f.openResult = .ok img ∧
        img.exif = some exifData ∧
        exifData.isEmpty = false ∧
        exifData.lookup 36867 = some dateStr ∧
        dateStr.isEmpty = false ∧
        strptime dateStr = some d) →
      get_date_taken strptime f = f.mtime) := by
  constructor
  · intro img exifData dateStr d h1 h2 h3 h4 h5 h6
    simp [get_date_taken, h1, h2, h3, h4, h5, h6]
  · intro hno
    rcases ho : f.openResult with e | img
    · simp [get_date_taken, ho]
    · rcases he : img.exif with _ | exifData
      · simp [get_date_taken, ho, he]
      · cases hemp : exifData.isEmpty with
        | true => simp [get_date_taken, ho, he, hemp]
        | false =>
          rcases hl : exifData.lookup 36867 with _ | dateStr
          · simp [get_date_taken, ho, he, hemp, hl]
          · cases hstr : dateStr.isEmpty with
            | true => simp [get_date_taken, ho, he, hemp, hl, hstr]
            | false =>
              rcases hp : strptime dateStr with _ | d
              · simp [get_date_taken, ho, he, hemp, hl, hstr, hp]
              · exact absurd ⟨img, exifData, dateStr, d, ho, he, hemp, hl, hstr, hp⟩ hno

/-- Witness for C2: a file with a well-formed tag resolves to the parsed
value; a file whose image cannot be opened resolves to its mtime. -/
theorem date_resolution_witness :
    get_date_taken
        (fun s => if s = "2020:01:02 03:04:05" then some ⟨2020, 1, 2, 3, 4, 5⟩ else none)
        ⟨"src", "a.jpg", .ok ⟨some [(36867, "2020:01:02 03:04:05")]⟩, ⟨1999, 9, 9, 9, 9, 9⟩⟩
      = ⟨2020, 1, 2, 3, 4, 5⟩ ∧
    get_date_taken (fun _ => none) ⟨"src", "b.jpg", .error "io", ⟨1999, 9, 9, 9, 9, 9⟩⟩
      = ⟨1999, 9, 9, 9, 9, 9⟩ :=
  ⟨(date_resolution _ _).1 ⟨some [(36867, "2020:01:02 03:04:05")]⟩
      [(36867, "2020:01:02 03:04:05")] "2020:01:02 03:04:05" ⟨2020, 1, 2, 3, 4, 5⟩
      rfl rfl rfl (by decide) rfl (by decide),
    (date_resolution _ _).2 (by
      rintro ⟨img, exifData, dateStr, d, h, -⟩
      exact Except.noConfusion h)⟩

/-- C5 (modelled from the spec, see `resolve_date`): date resolution fails
with `MetadataError` only when `strict` is true; in strict mode an exception
while opening/reading the image or a parse failure of a present tag is
re-raised instead of silently falling back; with `strict = false` all such
errors are swallowed and resolution agrees with `get_date_taken` (metadata
value when it parses, modification timestamp otherwise). -/
theorem resolve_date_strict (strptime : String → Option DateTime) (f : SrcFile) :
    (resolve_date false strptime f = .ok (get_date_taken strptime f)) ∧
    (∀ strict e, resolve_date strict strptime f = .error e → strict = true) ∧
    (∀ e, f.openResult = .error e →
      resolve_date true strptime f = .error (.ioError e)) ∧
    (∀ img exifData dateStr,
        f.openResult = .ok img →
        img.exif = some exifData →
        exifData.isEmpty = false →
        exifData.lookup 36867 = some dateStr →
        dateStr.isEmpty = false →
        strptime dateStr = none →
        resolve_date true strptime f = .error (.parseError dateStr)) := by
  have hagree : resolve_date false strptime f = .ok (get_date_taken strptime f) := by
    rcases ho : f.openResult with e | img
    · simp [resolve_date, get_date_taken, ho]
    · rcases he : img.exif with _ | exifData
      · simp [resolve_date, get_date_taken, ho, he]
      · cases hemp : exifData.isEmpty with
        | true => simp [resolve_date, get_date_taken, ho, he, hemp]
        | false =>
          rcases hl : exifData.lookup 36867 with _ | dateStr
          · simp [resolve_date, get_date_taken, ho, he, hemp, hl]
          · cases hstr : dateStr.isEmpty with
            | true => simp [resolve_date, get_date_taken, ho, he, hemp, hl, hstr]
            | false =>
              rcases hp : strptime dateStr with _ | d <;>
                simp [resolve_date, get_date_taken, ho, he, hemp, hl, hstr, hp]
  refine ⟨hagree, ?_, ?_, ?_⟩
  · intro strict e herr
    cases strict with
    | true => rfl
    | false => rw [hagree] at herr; exact Except.noConfusion herr
  · intro e ho
    simp [resolve_date, ho]
  · intro img exifData dateStr h1 h2 h3 h4 h5 h6
    simp [resolve_date, h1, h2, h3, h4, h5, h6]

/-- Witness for C5: in strict mode an unreadable image is reported as a
`MetadataError`; non-strict resolution of the same file succeeds with the
fallback timestamp. -/
theorem resolve_date_strict_witness :
    resolve_date true (fun _ => none) ⟨"src", "b.jpg", .error "io", ⟨1999, 9, 9, 9, 9, 9⟩⟩
      = .error (.ioError "io") ∧
    resolve_date false (fun _ => none) ⟨"src", "b.jpg", .error "io", ⟨1999, 9, 9, 9, 9, 9⟩⟩
      = .ok ⟨1999, 9, 9, 9, 9, 9⟩ :=
  ⟨(resolve_date_strict (fun _ => none)
      ⟨"src", "b.jpg", .error "io", ⟨1999, 9, 9, 9, 9, 9⟩⟩).2.2.1 "io" rfl,
    (resolve_date_strict (fun _ => none)
      ⟨"src", "b.jpg", .error "io", ⟨1999, 9, 9, 9, 9, 9⟩⟩).1⟩

/-! ### Planner invariants -/

/-- Invariant carried through the planning loop: destinations are pairwise
distinct, absent from the real filesystem, and all recorded in the reserved
set. -/
def PlanInv (fs : Finset String) (st : PlanState) : Prop :=
  st.planned_operations.Pairwise
    (fun a b => a.destination_path ≠ b.destination_path) ∧
  (∀ op ∈ st.planned_operations, op.destination_path ∉ fs) ∧
  (∀ op ∈ st.planned_operations, op.destination_path ∈ st.reserved_paths)

theorem planStep_inv (strptime : String → Option DateTime) (fs : Finset String)
    (dest : String) (pfx : Option String) (st : PlanState) (f : SrcFile)
    (h : PlanInv fs st) : PlanInv fs (planStep strptime fs dest pfx st f) := by
  obtain ⟨hpw, hfs, hres⟩ := h
  have hfree := get_unique_path_not_occupied fs st.reserved_paths
    (targetDirFor dest pfx (get_date_taken strptime f)) f.name
  rw [occupied, Bool.or_eq_false_iff, decide_eq_false_iff_not,
    decide_eq_false_iff_not] at hfree
  obtain ⟨hfree1, hfree2⟩ := hfree
  refine ⟨?_, ?_, ?_⟩
  · simp only [planStep, List.pairwise_append]
    refine ⟨hpw, List.pairwise_singleton _ _, ?_⟩
    intro a ha b hb
    rw [List.mem_singleton] at hb
    subst hb
    intro he
    apply hfree2
    have hm := hres a ha
    rw [he] at hm
    exact hm
  · intro op hop
    simp only [planStep] at hop
    rcases List.mem_append.mp hop with hmem | hmem
    · exact hfs op hmem
    · rw [List.mem_singleton] at hmem; subst hmem; exact hfree1
  · intro op hop
    simp only [planStep] at hop ⊢
    rcases List.mem_append.mp hop with hmem | hmem
    · exact Finset.mem_insert_of_mem (hres op hmem)
    · rw [List.mem_singleton] at hmem; subst hmem; exact Finset.mem_insert_self _ _

theorem planFold_inv (strptime : String → Option DateTime) (fs : Finset String)
    (dest : String) (pfx : Option String) :
    ∀ (walk : List SrcFile) (st : PlanState), PlanInv fs st →
      PlanInv fs (walk.foldl (planStep strptime fs dest pfx) st) := by
  intro walk
  induction walk with
  | nil => intro st h; exact h
  | cons f rest ih =>
    intro st h
    exact ih (planStep strptime fs dest pfx st f) (planStep_inv strptime fs dest pfx st f h)

/-- C1: within one planning pass no two planned operations share a
destination path, and no planned destination coincides with a path that
already exists on the filesystem: uniqueness holds over the union of
filesystem state and the reserved set accumulated so far. -/
theorem plan_dest_unique (strptime : String → Option DateTime) (fs : Finset String)
    (dest : String) (pfx : Option String) (walk : List SrcFile) :
    (planPass strptime fs dest pfx walk).planned_operations.Pairwise
      (fun a b => a.destination_path ≠ b.destination_path) ∧
    ∀ op ∈ (planPass strptime fs dest pfx walk).planned_operations,
      op.destination_path ∉ fs := by
  have h := planFold_inv strptime fs dest pfx walk emptyPlanState
    ⟨List.Pairwise.nil, by intro op hop; exact absurd hop (List.not_mem_nil op),
      by intro op hop; exact absurd hop (List.not_mem_nil op)⟩
  exact ⟨h.1, h.2.1⟩

/-- Witness for C1: a batch of three identically named files planned into one
folder gets pairwise distinct destinations, none clashing with the existing
`dest/2020/01-January/a.jpg`. -/
theorem plan_dest_unique_witness :
    (planPass (fun _ => none) {"dest/2020/01-January/a.jpg"} "dest" none
        [⟨"s", "a.jpg", .error "io", ⟨2020, 1, 2, 3, 4, 5⟩⟩,
         ⟨"s/t", "a.jpg", .error "io", ⟨2020, 1, 2, 3, 4, 5⟩⟩,
         ⟨"s/u", "a.jpg", .error "io", ⟨2020, 1, 2, 3, 4, 5⟩⟩]).planned_operations.Pairwise
      (fun a b => a.destination_path ≠ b.destination_path) ∧
    ∀ op ∈ (planPass (fun _ => none) {"dest/2020/01-January/a.jpg"} "dest" none
        [⟨"s", "a.jpg", .error "io", ⟨2020, 1, 2, 3, 4, 5⟩⟩,
         ⟨"s/t", "a.jpg", .error "io", ⟨2020, 1, 2, 3, 4, 5⟩⟩,
         ⟨"s/u", "a.jpg", .error "io", ⟨2020, 1, 2, 3, 4, 5⟩⟩]).planned_operations,
      op.destination_path ∉ ({"dest/2020/01-January/a.jpg"} : Finset String) :=
  plan_dest_unique (fun _ => none) {"dest/2020/01-January/a.jpg"} "dest" none
    [⟨"s", "a.jpg", .error "io", ⟨2020, 1, 2, 3, 4, 5⟩⟩,
     ⟨"s/t", "a.jpg", .error "io", ⟨2020, 1, 2, 3, 4, 5⟩⟩,
     ⟨"s/u", "a.jpg", .error "io", ⟨2020, 1, 2, 3, 4, 5⟩⟩]

/-! ### Planner trace lemmas -/

theorem allocEffects_reads (fs reserved : Finset String) (dir filename : String) :
    ∀ e ∈ allocEffects fs reserved dir filename, e.isRead = true := by
  intro e he
  rw [allocEffects, List.mem_map] at he
  obtain ⟨k, -, rfl⟩ := he
  rfl

theorem planStep_trace_reads (strptime : String → Option DateTime) (fs : Finset String)
    (dest : String) (pfx : Option String) (st : PlanState) (f : SrcFile)
    (h : ∀ e ∈ st.trace, e.isRead = true) :
    ∀ e ∈ (planStep strptime fs dest pfx st f).trace, e.isRead = true := by
  intro e he
  simp only [planStep] at he
  rcases List.mem_append.mp he with hmem | hmem
  · rcases List.mem_append.mp hmem with hmem2 | hmem2
    · exact h e hmem2
    · exact dateEffects_reads strptime f e hmem2
  · exact allocEffects_reads fs st.reserved_paths
      (targetDirFor dest pfx (get_date_taken strptime f)) f.name e hmem

theorem planFold_trace_reads (strptime : String → Option DateTime) (fs : Finset String)
    (dest : String) (pfx : Option String) :
    ∀ (walk : List SrcFile) (st : PlanState), (∀ e ∈ st.trace, e.isRead = true) →
      ∀ e ∈ (walk.foldl (planStep strptime fs dest pfx) st).trace, e.isRead = true := by
  intro walk
  induction walk with
  | nil => intro st h; exact h
  | cons f rest ih =>
    intro st h
    exact ih (planStep strptime fs dest pfx st f)
      (planStep_trace_reads strptime fs dest pfx st f h)

theorem planPass_trace_reads (strptime : String → Option DateTime) (fs : Finset String)
    (dest : String) (pfx : Option String) (walk : List SrcFile) :
    ∀ e ∈ (planPass strptime fs dest pfx walk).trace, e.isRead = true :=
  planFold_trace_reads strptime fs dest pfx walk emptyPlanState
    (by intro e he; exact absurd he (List.not_mem_nil e))

/-- C4: the planning phase performs no filesystem mutation: every effect in
its trace is a metadata read or an existence check, and replaying the whole
trace against the filesystem leaves it unchanged — the full plan is produced
with zero directories created, zero files copied, zero files deleted. -/
theorem plan_no_mutation (strptime : String → Option DateTime) (fs : Finset String)
    (dest : String) (pfx : Option String) (walk : List SrcFile) :
    (∀ e ∈ (planPass strptime fs dest pfx walk).trace, e.isRead = true) ∧
    applyEffects fs (planPass strptime fs dest pfx walk).trace = fs :=
  ⟨planPass_trace_reads strptime fs dest pfx walk,
    applyEffects_reads _ fs (planPass_trace_reads strptime fs dest pfx walk)⟩

/-- Witness for C4 on a concrete one-file walk. -/
theorem plan_no_mutation_witness :
    (∀ e ∈ (planPass (fun _ => none) {"x"} "dest" (some "trip")
        [⟨"s", "a.jpg", .error "io", ⟨2020, 1, 2, 3, 4, 5⟩⟩]).trace, e.isRead = true) ∧
    applyEffects {"x"} (planPass (fun _ => none) {"x"} "dest" (some "trip")
        [⟨"s", "a.jpg", .error "io", ⟨2020, 1, 2, 3, 4, 5⟩⟩]).trace = {"x"} :=
  plan_no_mutation (fun _ => none) {"x"} "dest" (some "trip")
    [⟨"s", "a.jpg", .error "io", ⟨2020, 1, 2, 3, 4, 5⟩⟩]

/-- C8: planning is idempotent with respect to an unchanged filesystem:
replaying the first run's filesystem effects and planning again yields the
identical sequence of planned operations. -/
theorem plan_idempotent (strptime : String → Option DateTime) (fs : Finset String)
    (dest : String) (pfx : Option String) (walk : List SrcFile) :
    (planPass strptime
        (applyEffects fs (planPass strptime fs dest pfx walk).trace)
        dest pfx walk).planned_operations
      = (planPass strptime fs dest pfx walk).planned_operations := by
  rw [applyEffects_reads _ fs (planPass_trace_reads strptime fs dest pfx walk)]

/-! ### Execution lemmas -/

theorem count_true_add_count_false (l : List Bool) :
    l.count true + l.count false = l.length := by
  induction l with
  | nil => rfl
  | cons b l ih => cases b <;> simp [List.count_cons] <;> omega

theorem execStep_inv (mk : Finset String) (cp : Finset (String × String))
    (st : ExecState) (op : PlannedOperation)
    (h : st.success_count = st.outcomes.count true) :
    (execStep mk cp st op).success_count = (execStep mk cp st op).outcomes.count true ∧
    (execStep mk cp st op).outcomes.length = st.outcomes.length + 1 := by
  simp only [execStep]
  by_cases h1 : dirname op.destination_path ∈ st.existing
  · simp only [h1, if_true]
    by_cases h2 : (op.source_path, op.destination_path) ∈ cp
    · simp [h2, h, List.count_append]
    · simp [h2, h, List.count_append]
  · simp only [h1, if_false]
    by_cases h3 : dirname op.destination_path ∈ mk
    · simp [h3, h, List.count_append]
    · by_cases h2 : (op.source_path, op.destination_path) ∈ cp
      · simp [h3, h2, h, List.count_append]
      · simp [h3, h2, h, List.count_append]

theorem execFold_inv (mk : Finset String) (cp : Finset (String × String)) :
    ∀ (plan : List PlannedOperation) (st : ExecState),
      st.success_count = st.outcomes.count true →
      (plan.foldl (execStep mk cp) st).success_count
          = (plan.foldl (execStep mk cp) st).outcomes.count true ∧
      (plan.foldl (execStep mk cp) st).outcomes.length
          = st.outcomes.length + plan.length := by
  intro plan
  induction plan with
  | nil => intro st h; exact ⟨h, rfl⟩
  | cons op rest ih =>
    intro st h
    obtain ⟨h1, h2⟩ := execStep_inv mk cp st op h
    obtain ⟨g1, g2⟩ := ih (execStep mk cp st op) h1
    refine ⟨g1, ?_⟩
    rw [List.foldl_cons, g2, h2]
    simp only [List.length_cons]
    omega

/-- C7: execution is fail-soft: the loop emits one outcome per planned
operation (a failed directory creation or copy skips only that operation and
never aborts the batch), the `success_count` counter equals the number of
successful copies, and a plan of `N` operations with exactly one failure
reports `succeeded = N - 1` out of `total = N`. -/
theorem exec_fail_soft (mk : Finset String) (cp : Finset (String × String))
    (existing : Finset String) (plan : List PlannedOperation) :
    (execute mk cp existing plan).outcomes.length = plan.length ∧
    (execute mk cp existing plan).success_count
      = (execute mk cp existing plan).outcomes.count true ∧
    ((execute mk cp existing plan).outcomes.count false = 1 →
      (execute mk cp existing plan).success_count = plan.length - 1) := by
  obtain ⟨h1, h2⟩ := execFold_inv mk cp plan ⟨existing, 0, []⟩ rfl
  have hlen : (execute mk cp existing plan).outcomes.length = plan.length := by
    simpa [execute] using h2
  have hcnt : (execute mk cp existing plan).success_count
      = (execute mk cp existing plan).outcomes.count true := by
    simpa [execute] using h1
  refine ⟨hlen, hcnt, ?_⟩
  intro hone
  have hsum := count_true_add_count_false (execute mk cp existing plan).outcomes
  omega

/-- Witness for C7: a two-operation plan whose second copy fails reports one
success out of two. -/
theorem exec_fail_soft_witness :
    (execute ∅ {("s/b.jpg", "d/x/b.jpg")} ∅
        [⟨"s/a.jpg", "d/x/a.jpg", ⟨2020, 1, 2, 3, 4, 5⟩⟩,
         ⟨"s/b.jpg", "d/x/b.jpg", ⟨2020, 1, 2, 3, 4, 5⟩⟩]).success_count
      = ([⟨"s/a.jpg", "d/x/a.jpg", ⟨2020, 1, 2, 3, 4, 5⟩⟩,
          ⟨"s/b.jpg", "d/x/b.jpg", ⟨2020, 1, 2, 3, 4, 5⟩⟩] :
            List PlannedOperation).length - 1 :=
  (exec_fail_soft ∅ {("s/b.jpg", "d/x/b.jpg")} ∅
    [⟨"s/a.jpg", "d/x/a.jpg", ⟨2020, 1, 2, 3, 4, 5⟩⟩,
     ⟨"s/b.jpg", "d/x/b.jpg", ⟨2020, 1, 2, 3, 4, 5⟩⟩]).2.2 (by decide)

/-! ### Exit codes -/

/-- Counterexample for C6 as stated: on a declined confirmation the program
prints "Operation cancelled." and calls `sys.exit(0)` — the exit code is 0,
not 1. -/
theorem exit_code_decline_cx :
    photoMain ["photo-archive.py", "src", "dest"] (fun _ => none) ∅ ∅ ∅
        [⟨"src", "a.jpg", .error "io", ⟨2020, 1, 2, 3, 4, 5⟩⟩] "n" = .cancelled ∧
    exitCode (photoMain ["photo-archive.py", "src", "dest"] (fun _ => none) ∅ ∅ ∅
        [⟨"src", "a.jpg", .error "io", ⟨2020, 1, 2, 3, 4, 5⟩⟩] "n") = 0 ∧
    (exitCode (photoMain ["photo-archive.py", "src", "dest"] (fun _ => none) ∅ ∅ ∅
        [⟨"src", "a.jpg", .error "io", ⟨2020, 1, 2, 3, 4, 5⟩⟩] "n") == 1) = false := by
  exact ⟨by decide, by decide, by decide⟩

/-- C6 (amended): the exit code is 1 on a usage error and 0 on success, on a
user-declined confirmation, and on a legitimately empty source; an empty
source yields a zero-length plan and the distinct "nothing to do" outcome
rather than an error. -/
theorem exit_codes (argv : List String) (strptime : String → Option DateTime)
    (fs mkdirFails : Finset String) (copyFails : Finset (String × String))
    (walk : List SrcFile) (confirm : String) :
    (argv.length < 3 →
      photoMain argv strptime fs mkdirFails copyFails walk confirm = .usageError ∧
      exitCode (photoMain argv strptime fs mkdirFails copyFails walk confirm) = 1) ∧
    (3 ≤ argv.length → walk = [] →
      photoMain argv strptime fs mkdirFails copyFails walk confirm = .nothingToDo ∧
      (planPass strptime fs ((argv[2]?).getD "") argv[3]? walk).planned_operations = [] ∧
      exitCode (photoMain argv strptime fs mkdirFails copyFails walk confirm) = 0) ∧
    (3 ≤ argv.length → walk ≠ [] → pyLower (pyStrip confirm) ≠ "y" →
      photoMain argv strptime fs mkdirFails copyFails walk confirm = .cancelled ∧
      exitCode (photoMain argv strptime fs mkdirFails copyFails walk confirm) = 0) ∧
    (3 ≤ argv.length → walk ≠ [] → pyLower (pyStrip confirm) = "y" →
      exitCode (photoMain argv strptime fs mkdirFails copyFails walk confirm) = 0) := by
  refine ⟨?_, ?_, ?_, ?_⟩
  · intro h
    simp [photoMain, h, exitCode]
  · intro h hw
    have hlt : ¬ argv.length < 3 := by omega
    subst hw
    simp [photoMain, hlt, planPass, emptyPlanState, exitCode]
  · intro h hw hc
    have hlt : ¬ argv.length < 3 := by omega
    have hlen : ¬ walk.length = 0 := by
      intro h0
      exact hw (List.length_eq_zero.mp h0)
    simp [photoMain, hlt, hlen, hc, exitCode]
  · intro h hw hc
    have hlt : ¬ argv.length < 3 := by omega
    have hlen : ¬ walk.length = 0 := by
      intro h0
      exact hw (List.length_eq_zero.mp h0)
    simp [photoMain, hlt, hlen, hc, exitCode]

/-- Witness for C6 (amended), exercising all four branches concretely. -/
theorem exit_codes_witness :
    (photoMain ["photo-archive.py"] (fun _ => none) ∅ ∅ ∅ [] "y" = .usageError ∧
      exitCode (photoMain ["photo-archive.py"] (fun _ => none) ∅ ∅ ∅ [] "y") = 1) ∧
    (photoMain ["photo-archive.py", "src", "dest"] (fun _ => none) ∅ ∅ ∅ [] "y"
        = .nothingToDo ∧
      (planPass (fun _ => none) ∅ ((["photo-archive.py", "src", "dest"][2]?).getD "")
        ["photo-archive.py", "src", "dest"][3]? []).planned_operations = [] ∧
      exitCode (photoMain ["photo-archive.py", "src", "dest"]
        (fun _ => none) ∅ ∅ ∅ [] "y") = 0) ∧
    (photoMain ["photo-archive.py", "src", "dest"] (fun _ => none) ∅ ∅ ∅
        [⟨"src", "a.jpg", .error "io", ⟨2020, 1, 2, 3, 4, 5⟩⟩] "n" = .cancelled ∧
      exitCode (photoMain ["photo-archive.py", "src", "dest"] (fun _ => none) ∅ ∅ ∅
        [⟨"src", "a.jpg", .error "io", ⟨2020, 1, 2, 3, 4, 5⟩⟩] "n") = 0) ∧
    exitCode (photoMain ["photo-archive.py", "src", "dest"] (fun _ => none) ∅ ∅ ∅
        [⟨"src", "a.jpg", .error "io", ⟨2020, 1, 2, 3, 4, 5⟩⟩] " Y ") = 0 :=
  ⟨(exit_codes ["photo-archive.py"] (fun _ => none) ∅ ∅ ∅ [] "y").1 (by decide),
    (exit_codes ["photo-archive.py", "src", "dest"] (fun _ => none) ∅ ∅ ∅ [] "y").2.1
      (by decide) rfl,
    (exit_codes ["photo-archive.py", "src", "dest"] (fun _ => none) ∅ ∅ ∅
        [⟨"src", "a.jpg", .error "io", ⟨2020, 1, 2, 3, 4, 5⟩⟩] "n").2.2.1
      (by decide) (List.cons_ne_nil _ _) (by decide),
    (exit_codes ["photo-archive.py", "src", "dest"] (fun _ => none) ∅ ∅ ∅
        [⟨"src", "a.jpg", .error "io", ⟨2020, 1, 2, 3, 4, 5⟩⟩] " Y ").2.2.2
      (by decide) (List.cons_ne_nil _ _) (by decide)⟩

end PhotoArchive
